import Mathlib

/-!
Shallow embedding of the salesforce-archivist download & validation engine
(`src/salesforce_archivist/salesforce/{content_version,attachment,api,download,validation}.py`).

Pure functions of the source become Lean functions; the stateful downloader and
validator become explicit state passing over an association-list filesystem and
association-list indices (mirroring Python dicts, which replace in place on an
existing key and append otherwise).  File contents are modelled as `String`
(byte strings), the MD5 routine as an abstract `String → String` parameter, and
the CSV layer at the level of typed rows: a cell holding a string is a
`String`, a cell holding an optional integer is an `Option Nat` (Python's
`str`/`int` round-trip is exact, and the empty cell is `none`; only string
cells can collide with the empty-cell encoding, which is why checksum cells
stay `String`).
-/

namespace Archivist

/-- The characters replaced by the filename sanitizer,
from `re.sub(r'[/\\?%*:|"<>]', "-", ...)` in `content_version.py` / `attachment.py`. -/
def pathHostileChars : List Char := ['/', '\\', '?', '%', '*', ':', '|', '"', '<', '>']

/-- Replace every path-hostile character with a dash, as the `re.sub` call does. -/
def sanitize (s : String) : String :=
  String.mk (s.data.map (fun c => if c ∈ pathHostileChars then '-' else c))

/-- A content version.  The fields `id`, `document_id`, `title`, `extension` and
`checksum` come from the class in `content_version.py`.  The fields
`version_number` and `content_size` are modelled from the spec and the test
suite: the class literal in `src` predates them, but `validation.py`
(`version.content_size`), `download.py` (`download_obj.content_size`) and every
test (`ContentVersion(version_id=..., version_number=..., content_size=...)`)
require them. -/
structure ContentVersion where
  id : String
  document_id : String
  title : String
  extension : String
  checksum : String
  version_number : Nat
  content_size : Nat
deriving DecidableEq

/-- The filename derivation exactly as written in
`src/salesforce_archivist/salesforce/content_version.py` (`ContentVersion.filename`):
`"{id}_{title}.{extension}"` with the title sanitized. -/
def ContentVersion.filename (v : ContentVersion) : String :=
  v.id ++ "_" ++ sanitize v.title ++ "." ++ v.extension

/-- Modelled from the spec: filename is the deterministic composition of parent
document id, version number, id, sanitized title and extension
(`"{doc_id}_{version_number}_{id}_{title}.{extension}"`), the format the test
suite asserts in `test_content_version.py`. -/
def ContentVersion.filename_spec (v : ContentVersion) : String :=
  v.document_id ++ "_" ++ toString v.version_number ++ "_" ++ v.id ++ "_"
    ++ sanitize v.title ++ "." ++ v.extension

/-- An attachment, from `attachment.py`. -/
structure Attachment where
  id : String
  parent_id : String
  name : String
  content_size : Nat
deriving DecidableEq

/-- `Attachment.filename`: `"{id}_{name}"` with the name sanitized. -/
def Attachment.filename (a : Attachment) : String :=
  a.id ++ "_" ++ sanitize a.name

/-- A usage snapshot (`ApiUsage` in `api.py`): the raw `used` / `total` counters. -/
structure ApiUsage where
  used : Int
  total : Int
deriving DecidableEq

/-- Round-half-to-even on rationals, the idealization of Python's built-in
`round` (which on these inputs rounds the float value half to even). -/
def roundHalfEven (x : ℚ) : ℤ :=
  if x - ⌊x⌋ < 1 / 2 then ⌊x⌋
  else if 1 / 2 < x - ⌊x⌋ then ⌊x⌋ + 1
  else if ⌊x⌋ % 2 = 0 then ⌊x⌋ else ⌊x⌋ + 1

/-- `ApiUsage.percent`: `round(self.used / self.total * 100, 2) if self.total > 0 else 0.0`.
Rounding a value to two decimal places is rounding `value * 100` to an integer
and dividing back by `100`. -/
def ApiUsage.percent (u : ApiUsage) : ℚ :=
  if 0 < u.total then
    ((roundHalfEven ((u.used : ℚ) / (u.total : ℚ) * 100 * 100) : ℤ) : ℚ) / 100
  else 0

/-- Download statistics (`DownloadStats` in `download.py`). -/
structure DownloadStats where
  total : Nat
  processed : Nat
  errors : Nat
  size : Nat
deriving DecidableEq

/-- `DownloadStats.add_processed`: increments `processed`, pulls `total` up to
`processed`, adds `size` unconditionally and increments `errors` when the item
failed.  `download_or_wait` calls this in its `finally` block with
`size=download_obj.content_size` whatever the outcome was. -/
def DownloadStats.add_processed (st : DownloadStats) (sz : Nat) (error : Bool) :
    DownloadStats :=
  { total := max st.total (st.processed + 1)
    processed := st.processed + 1
    errors := if error then st.errors + 1 else st.errors
    size := st.size + sz }

/-- The filesystem, as a path-to-contents association list. -/
abbrev FileSystem := List (String × String)

/-- Look a path up in the filesystem. -/
def fsGet : FileSystem → String → Option String
  | [], _ => none
  | (p, c) :: rest, q => if p = q then some c else fsGet rest q

/-- `os.path.exists` over the modelled filesystem. -/
def fsExists (fs : FileSystem) (p : String) : Bool :=
  (fsGet fs p).isSome

/-- Write a file, replacing the entry in place when the path already exists
(the semantics of writing to a path). -/
def fsWrite (fs : FileSystem) (p c : String) : FileSystem :=
  if (fsGet fs p).isSome then fs.map (fun e => if e.1 = p then (p, c) else e)
  else fs ++ [(p, c)]

/-- A validated record (`ValidatedFile` in `validation.py`).  The constructor
in the source rejects the case where both fields are `None`. -/
structure ValidatedFile where
  path : String
  checksum : Option String
  content_size : Option Nat
deriving DecidableEq

/-- Dictionary lookup by path (`ValidatedList.get`). -/
def vGet : List ValidatedFile → String → Option ValidatedFile
  | [], _ => none
  | r :: rest, p => if r.path = p then some r else vGet rest p

/-- Dictionary insert keyed by path (`ValidatedList.add`): replace in place on
an existing key, append otherwise — Python `dict` assignment. -/
def vAdd (l : List ValidatedFile) (r : ValidatedFile) : List ValidatedFile :=
  if (vGet l r.path).isSome then l.map (fun x => if x.path = r.path then r else x)
  else l ++ [r]

/-- The outcome of validating one object: the returned flag, the validated
index afterwards, and how many checksum/size computations were performed
(calls to `_calculate_md5` / `_calculate_size`). -/
structure ValidationResult where
  valid : Bool
  index : List ValidatedFile
  computations : Nat
deriving DecidableEq

/-- `DownloadValidator._validate_version`.  Missing file: invalid.  Cached
record for the path: valid iff the cached checksum equals the server checksum
(a cached `None` checksum compares unequal to any string), no recomputation,
no index change.  Otherwise: compute the MD5 of the file, valid iff it equals
the server checksum, and add a record carrying the computed checksum together
with the version's server-recorded content size. -/
def validate_version (md5 : String → String) (idx : List ValidatedFile)
    (fs : FileSystem) (v : ContentVersion) (download_path : String) :
    ValidationResult :=
  match fsGet fs download_path with
  | none => ⟨false, idx, 0⟩
  | some content =>
    match vGet idx download_path with
    | some validated => ⟨decide (validated.checksum = some v.checksum), idx, 0⟩
    | none =>
      let checksum := md5 content
      ⟨decide (v.checksum = checksum),
       vAdd idx ⟨download_path, some checksum, some v.content_size⟩, 1⟩

/-- `DownloadValidator._validate_attachment`.  Mirrors the version case with
sizes; on a cache miss the record stores `attachment.content_size` (the
server-recorded size), not the size just computed from disk. -/
def validate_attachment (idx : List ValidatedFile) (fs : FileSystem)
    (a : Attachment) (download_path : String) : ValidationResult :=
  match fsGet fs download_path with
  | none => ⟨false, idx, 0⟩
  | some content =>
    match vGet idx download_path with
    | some validated => ⟨decide (validated.content_size = some a.content_size), idx, 0⟩
    | none =>
      let size := content.length
      ⟨decide (a.content_size = size),
       vAdd idx ⟨download_path, none, some a.content_size⟩, 1⟩

/-- One data row of the persisted validated index (`validated_files.csv`):
the checksum cell (a string, `""` when the in-memory field was `None`), the
content-size cell (empty when `None`, a decimal integer otherwise — modelled
as `Option Nat` since Python's `str`/`int` round-trip is exact and never
collides with the empty cell), and the path cell.  The header row
`Checksum, Content Size, Path` is written by `save` and skipped unread by
`load_data_from_file`, so it is left implicit. -/
structure VRow where
  checksum_cell : String
  size_cell : Option Nat
  path_cell : String
deriving DecidableEq

/-- How `ValidatedList.save` serializes one record: `None` becomes the empty
cell. -/
def encodeValidatedRow (r : ValidatedFile) : VRow :=
  ⟨r.checksum.getD "", r.content_size, r.path⟩

/-- `ValidatedList.save`: one row per record, in index order. -/
def validated_save (idx : List ValidatedFile) : List VRow :=
  idx.map encodeValidatedRow

/-- How `ValidatedList.load_data_from_file` reads one row:
`checksum = row[0] if row[0] != "" else None`, the size cell as-is, and the
`ValidatedFile` constructor raises `ValueError` (here `none`) when both decode
to `None`. -/
def decodeValidatedRow (row : VRow) : Option ValidatedFile :=
  let checksum := if row.checksum_cell = "" then none else some row.checksum_cell
  match checksum, row.size_cell with
  | none, none => none
  | c, s => some ⟨row.path_cell, c, s⟩

/-- `ValidatedList.load_data_from_file`: fold `add` over the decoded rows;
a row whose record constructor raises aborts the whole load. -/
def validated_load : List VRow → List ValidatedFile → Option (List ValidatedFile)
  | [], acc => some acc
  | row :: rest, acc =>
    match decodeValidatedRow row with
    | none => none
    | some r => validated_load rest (vAdd acc r)

/-- A downloaded record (`DownloadedSalesforceObject` in `download.py`). -/
structure DownloadedSalesforceObject where
  id : String
  path : String
deriving DecidableEq

/-- Dictionary lookup by object id (`DownloadedList.get`). -/
def dGet : List DownloadedSalesforceObject → String → Option DownloadedSalesforceObject
  | [], _ => none
  | r :: rest, i => if r.id = i then some r else dGet rest i

/-- Dictionary insert keyed by object id (`DownloadedList.add`). -/
def dAdd (l : List DownloadedSalesforceObject) (r : DownloadedSalesforceObject) :
    List DownloadedSalesforceObject :=
  if (dGet l r.id).isSome then l.map (fun x => if x.id = r.id then r else x)
  else l ++ [r]

/-- `DownloadedList.save`: rows `[sf_obj.id, sf_obj.path]` in index order
(the header `Id, Path on disk` is skipped unread by the loader and left
implicit). -/
def downloaded_save (idx : List DownloadedSalesforceObject) : List (String × String) :=
  idx.map (fun o => (o.id, o.path))

/-- `DownloadedList.load_data_from_file`: fold `add` over rows
`(row[0], row[1])`. -/
def downloaded_load : List (String × String) → List DownloadedSalesforceObject →
    List DownloadedSalesforceObject
  | [], acc => acc
  | (i, p) :: rest, acc => downloaded_load rest (dAdd acc ⟨i, p⟩)

/-- The discriminated union dispatched on by `Downloader.download_from_sf`. -/
inductive DownloadObject where
  | version (v : ContentVersion)
  | attachment (a : Attachment)
deriving DecidableEq

/-- The object id used as the downloaded-index key. -/
def DownloadObject.obj_id : DownloadObject → String
  | .version v => v.id
  | .attachment a => a.id

/-- State threaded through a downloader run: the filesystem, the downloaded
index, and the log of network fetch calls made
(`download_content_version` / `download_attachment`), as the list of fetched
object ids in order. -/
structure DownloaderState where
  fs : FileSystem
  idx : List DownloadedSalesforceObject
  fetches : List String
deriving DecidableEq

/-- `Downloader._download_content_version_from_sf`, with the remote transport
modelled as `remote : object id → bytes`.  Case A: the destination file exists
— self-heal the index when no record exists, never fetch.  Case B: a record
points at a different existing file — copy its bytes.  Case C: fetch from the
network, write the file and upsert a record. -/
def download_content_version_from_sf (remote : String → String)
    (s : DownloaderState) (v : ContentVersion) (download_path : String) :
    DownloaderState :=
  let fetchCase : DownloaderState :=
    ⟨fsWrite s.fs download_path (remote v.id),
     dAdd s.idx ⟨v.id, download_path⟩,
     s.fetches ++ [v.id]⟩
  match dGet s.idx v.id with
  | none =>
    if fsExists s.fs download_path then
      { s with idx := dAdd s.idx ⟨v.id, download_path⟩ }
    else fetchCase
  | some downloaded =>
    if fsExists s.fs download_path then s
    else if fsExists s.fs downloaded.path then
      if downloaded.path ≠ download_path then
        { s with fs := fsWrite s.fs download_path ((fsGet s.fs downloaded.path).getD "") }
      else s
    else fetchCase

/-- `Downloader._download_attachment_from_sf`: unconditionally fetch from the
network, write the file and add a record — there is no file-exists or copy
case in the source. -/
def download_attachment_from_sf (remote : String → String) (s : DownloaderState)
    (a : Attachment) (download_path : String) : DownloaderState :=
  ⟨fsWrite s.fs download_path (remote a.id),
   dAdd s.idx ⟨a.id, download_path⟩,
   s.fetches ++ [a.id]⟩

/-- `Downloader.download_from_sf`: dispatch on the object kind. -/
def download_from_sf (remote : String → String) (s : DownloaderState) :
    DownloadObject → String → DownloaderState
  | .version v, p => download_content_version_from_sf remote s v p
  | .attachment a, p => download_attachment_from_sf remote s a p

/-- One sequential run of `Downloader.download` over a plan (the claims about
resume and dedup concern the sequential behaviour per item). -/
def downloader_run (remote : String → String)
    (plan : List (DownloadObject × String)) (s : DownloaderState) :
    DownloaderState :=
  plan.foldl (fun st item => download_from_sf remote st item.1 item.2) s

/-- The stats update performed by `Downloader.download_or_wait` in its
`finally` block for one plan item, where `error` records whether the quota
wait or the download raised. -/
def download_or_wait_stats (st : DownloadStats) (obj_content_size : Nat)
    (error : Bool) : DownloadStats :=
  st.add_processed obj_content_size error

/-- How a run of `Downloader._wait_if_api_usage_limit` can end: `returned`
normally, `raisedStop` with `StopDownloadException`, or `diverged` when the
supplied refresh snapshots run out while usage is still at or above the
threshold (the real loop would keep waiting). -/
inductive WaitResult where
  | returned
  | raisedStop
  | diverged
deriving DecidableEq

/-- The stop event, modelled by the total number of slept seconds at which the
flag becomes (and stays) set; `none` means it is never set. -/
def stopSet (stopAt : Option Nat) (t : Nat) : Bool :=
  match stopAt with
  | none => false
  | some s => s ≤ t

/-- The inner `for counter in range(self._wait_sec)` loop: before every
one-second sleep the stop flag is checked; returns whether
`StopDownloadException` was raised and how many seconds were slept.
`elapsed` is the number of seconds slept since the wait began. -/
def wait_inner (stopAt : Option Nat) (elapsed : Nat) : Nat → Bool × Nat
  | 0 => (false, 0)
  | n + 1 =>
    if stopSet stopAt elapsed then (true, 0)
    else
      let r := wait_inner stopAt (elapsed + 1) n
      (r.1, r.2 + 1)

/-- Aggregate outcome of the wait: the result, total seconds slept, and the
number of `get_api_usage(refresh=True)` calls made. -/
structure WaitOutcome where
  result : WaitResult
  sleeps : Nat
  refreshes : Nat
deriving DecidableEq

/-- The outer `while usage.percent >= self._max_api_usage_percent` loop:
`usage` is the current usage percent and `refreshList` the successive values
returned by `get_api_usage(refresh=True)`. -/
def wait_outer (threshold : ℚ) (stopAt : Option Nat) (wait_sec : Nat)
    (refreshList : List ℚ) (elapsed : Nat) (usage : ℚ) : WaitOutcome :=
  if usage < threshold then ⟨.returned, 0, 0⟩
  else
    let inner := wait_inner stopAt elapsed wait_sec
    if inner.1 then ⟨.raisedStop, inner.2, 0⟩
    else
      match refreshList with
      | [] => ⟨.diverged, inner.2, 0⟩
      | u :: rest =>
        let o := wait_outer threshold stopAt wait_sec rest (elapsed + inner.2) u
        ⟨o.result, inner.2 + o.sleeps, o.refreshes + 1⟩

/-- Full outcome of `_wait_if_api_usage_limit`, also counting every usage
consultation (the initial `get_api_usage()` plus each refresh). -/
structure FullWaitOutcome where
  result : WaitResult
  sleeps : Nat
  refreshes : Nat
  usage_fetches : Nat
deriving DecidableEq

/-- `Downloader._wait_if_api_usage_limit`: when the threshold is unset the
body is skipped entirely; otherwise fetch usage once (`first`) and run the
outer wait loop. -/
def wait_if_api_usage_limit (threshold : Option ℚ) (stopAt : Option Nat)
    (wait_sec : Nat) (first : ℚ) (refreshList : List ℚ) : FullWaitOutcome :=
  match threshold with
  | none => ⟨.returned, 0, 0, 0⟩
  | some m =>
    let o := wait_outer m stopAt wait_sec refreshList 0 first
    ⟨o.result, o.sleeps, o.refreshes, o.refreshes + 1⟩

/-- C1.  Idempotent resume fails on the code: for the one-attachment plan
`[(A1, "/d/f1.txt")]` run from an empty directory and empty index, a second run
against the resulting directory and index performs one further
`download_attachment` network fetch (the source attachment path has no
file-already-exists case), where the claim requires zero. -/
theorem c1_second_run_fetches_attachment_again :
    (downloader_run (fun _ => "test")
        [(DownloadObject.attachment ⟨"A1", "P", "file", 4⟩, "/d/f1.txt")]
        { fs := (downloader_run (fun _ => "test")
            [(DownloadObject.attachment ⟨"A1", "P", "file", 4⟩, "/d/f1.txt")]
            ⟨[], [], []⟩).fs,
          idx := (downloader_run (fun _ => "test")
            [(DownloadObject.attachment ⟨"A1", "P", "file", 4⟩, "/d/f1.txt")]
            ⟨[], [], []⟩).idx,
          fetches := [] }).fetches = ["A1"] := by decide

/-- C2.  Dedup-by-copy fails on the code for attachments: one sequential run
over the plan `[(A1, "/d/f1.txt"), (A1, "/d/f2.txt")]` from an empty state
invokes the network fetch twice for object id `A1`, where the claim allows at
most one. -/
theorem c2_duplicate_attachment_fetched_twice :
    (downloader_run (fun _ => "test")
        [(DownloadObject.attachment ⟨"A1", "P", "file", 4⟩, "/d/f1.txt"),
         (DownloadObject.attachment ⟨"A1", "P", "file", 4⟩, "/d/f2.txt")]
        ⟨[], [], []⟩).fetches = ["A1", "A1"] := by decide

/-- C8.  The filename derivation in the source drops the parent document id
and the version number: for the version `(id VID, document DID, title A/B,
extension txt, version 2)` the code produces `VID_A-B.txt` while the claimed
composition (asserted verbatim by the repository's own tests) is
`DID_2_VID_A-B.txt`.  The attachment half of the claim does hold. -/
theorem c8_filename_drops_document_id_and_version_number :
    ContentVersion.filename ⟨"VID", "DID", "A/B", "txt", "c", 2, 10⟩ = "VID_A-B.txt" ∧
    ContentVersion.filename_spec ⟨"VID", "DID", "A/B", "txt", "c", 2, 10⟩ =
      "DID_2_VID_A-B.txt" ∧
    ContentVersion.filename ⟨"VID", "DID", "A/B", "txt", "c", 2, 10⟩ ≠
      ContentVersion.filename_spec ⟨"VID", "DID", "A/B", "txt", "c", 2, 10⟩ ∧
    Attachment.filename ⟨"AID", "PID", "a<b", 4⟩ = "AID_a-b" := by decide

/-- C3 counterexample.  On a cache miss the attachment validator stores the
server-recorded size, not the freshly computed one: file `"test"` on disk has
computed size 4, the attachment claims size 10, and the record cached under
the path carries 10. -/
theorem c3_attachment_caches_server_size :
    validate_attachment [] [("/p", "test")] ⟨"AID", "PID", "n", 10⟩ "/p" =
      ⟨false, [⟨"/p", none, some (10 : Nat)⟩], 1⟩ ∧
    ("test" : String).length = 4 ∧ (10 : Nat) ≠ 4 := by decide

/-- C7 counterexample.  The record stored by a version validation has both
fields populated — the computed checksum and the version's server content
size — contradicting the exactly-one invariant. -/
theorem c7_version_record_populates_both_fields :
    (validate_version (fun s => s) [] [("/p", "hash")]
        ⟨"V", "D", "t", "e", "hash", 1, 10⟩ "/p").index =
      [⟨"/p", some "hash", some (10 : Nat)⟩] ∧
    (some "hash" : Option String).isSome = true ∧
    (some (10 : Nat) : Option Nat).isSome = true := by decide

/-- C6 counterexample.  The bytes counter grows for a failed item too: a
failed item of content size 10 raises `size` from 0 to 10, where the claim
requires it to stay unchanged. -/
theorem c6_size_added_for_failed_item :
    (download_or_wait_stats ⟨1, 0, 0, 0⟩ 10 true).size ≠
      (⟨1, 0, 0, 0⟩ : DownloadStats).size := by decide

/-- C6 (amended).  Per-item bookkeeping of `download_or_wait`: `processed`
grows by exactly one, `errors` grows iff the item failed, and `size` grows by
the object's content size on success and failure alike. -/
theorem c6_bookkeeping_amended :
    ∀ (st : DownloadStats) (sz : Nat) (error : Bool),
    (download_or_wait_stats st sz error).processed = st.processed + 1 ∧
    (download_or_wait_stats st sz error).errors =
      st.errors + (if error then 1 else 0) ∧
    (download_or_wait_stats st sz error).size = st.size + sz := by
  intro st sz error
  refine ⟨rfl, ?_, rfl⟩
  cases error <;> simp [download_or_wait_stats, DownloadStats.add_processed]

/-- C9 counterexample.  The computed percent is rounded to two decimal places,
so it is not exactly `used/total*100`: for `used = 1, total = 3` the code
yields `33.33` while the exact value is `100/3`. -/
theorem c9_percent_not_exact :
    ApiUsage.percent ⟨1, 3⟩ ≠ (1 : ℚ) / 3 * 100 := by
  have h1 : ((((1 : Int) : ℚ)) / (((3 : Int) : ℚ)) * 100 * 100) = 10000 / 3 := by norm_num
  have h2 : ⌊(10000 / 3 : ℚ)⌋ = 3333 := by norm_num
  have h3 : (10000 / 3 : ℚ) - 3333 < 1 / 2 := by norm_num
  simp only [ApiUsage.percent, roundHalfEven, h1, h2, h3, if_true]
  norm_num

/-- C10 counterexample.  The persistence round trip is not the identity on
every in-memory validated index: a record whose checksum is the empty string
(legal for the constructor) serializes to an empty checksum cell, which the
loader decodes as an absent checksum; with no size either, reconstruction
raises `ValueError` and the load fails. -/
theorem c10_empty_checksum_breaks_round_trip :
    validated_load (validated_save [⟨"/p", some "", none⟩]) [] ≠
      some [⟨"/p", some "", none⟩] := by decide

/-- Inserting a record whose path is not yet in the validated index appends it. -/
theorem vAdd_of_fresh (l : List ValidatedFile) (r : ValidatedFile)
    (h : vGet l r.path = none) : vAdd l r = l ++ [r] := by
  simp [vAdd, h]

/-- C4.  Validator cache-hit path: when the destination file exists and the
validated index holds a record for the path, validation compares the server
value against the cached value, performs no checksum/size computation and
leaves the index unchanged; it is valid exactly when the cached value equals
the server-recorded one. -/
theorem c4_cache_hit_no_recompute :
    ∀ (md5 : String → String) (idx : List ValidatedFile) (fs : FileSystem)
      (v : ContentVersion) (a : Attachment) (p : String) (r : ValidatedFile),
      fsExists fs p = true → vGet idx p = some r →
      validate_version md5 idx fs v p =
        ⟨decide (r.checksum = some v.checksum), idx, 0⟩ ∧
      validate_attachment idx fs a p =
        ⟨decide (r.content_size = some a.content_size), idx, 0⟩ := by
  intro md5 idx fs v a p r hfs hget
  obtain ⟨content, hc⟩ := Option.isSome_iff_exists.mp hfs
  constructor
  · simp [validate_version, hc, hget]
  · simp [validate_attachment, hc, hget]

/-- C4 witness: a cached checksum `abc` against server checksum `xyz` is
reported invalid, and a cached record with no size against server size 7 is
reported invalid, with no recomputation in either case. -/
theorem c4_cache_hit_no_recompute_witness :
    fsExists [("/p", "data")] "/p" = true ∧
    vGet [⟨"/p", some "abc", none⟩] "/p" = some ⟨"/p", some "abc", none⟩ ∧
    (validate_version (fun s => s) [⟨"/p", some "abc", none⟩] [("/p", "data")]
        ⟨"V", "D", "t", "e", "xyz", 1, 10⟩ "/p" =
      ⟨decide ((⟨"/p", some "abc", none⟩ : ValidatedFile).checksum = some "xyz"),
       [⟨"/p", some "abc", none⟩], 0⟩ ∧
    validate_attachment [⟨"/p", some "abc", none⟩] [("/p", "data")]
        ⟨"A", "P", "n", 7⟩ "/p" =
      ⟨decide ((⟨"/p", some "abc", none⟩ : ValidatedFile).content_size = some 7),
       [⟨"/p", some "abc", none⟩], 0⟩) :=
  ⟨by decide, by decide,
   c4_cache_hit_no_recompute (fun s => s) [⟨"/p", some "abc", none⟩]
     [("/p", "data")] ⟨"V", "D", "t", "e", "xyz", 1, 10⟩ ⟨"A", "P", "n", 7⟩
     "/p" ⟨"/p", some "abc", none⟩ (by decide) (by decide)⟩

/-- C3 (amended).  Validator cache-miss path: when the destination file exists
and no record is cached for the path, validation computes the checksum (for
versions) or size (for attachments) of the file, classifies the item valid iff
the computed value equals the server-recorded one, and always caches a record
under the path; the version record carries the freshly computed checksum
(together with the version's server-recorded content size), while the
attachment record carries the server-recorded size — equal to the computed
size only when the item is valid. -/
theorem c3_cache_miss_amended :
    ∀ (md5 : String → String) (idx : List ValidatedFile) (fs : FileSystem)
      (v : ContentVersion) (a : Attachment) (p content : String),
      fsGet fs p = some content → vGet idx p = none →
      validate_version md5 idx fs v p =
        ⟨decide (v.checksum = md5 content),
         vAdd idx ⟨p, some (md5 content), some v.content_size⟩, 1⟩ ∧
      validate_attachment idx fs a p =
        ⟨decide (a.content_size = content.length),
         vAdd idx ⟨p, none, some a.content_size⟩, 1⟩ := by
  intro md5 idx fs v a p content hc hget
  constructor
  · simp [validate_version, hc, hget]
  · simp [validate_attachment, hc, hget]

/-- C3 witness: a version whose server checksum matches the MD5 of the file is
valid and its computed checksum is cached; an attachment whose server size 9
differs from the on-disk size 5 is invalid. -/
theorem c3_cache_miss_amended_witness :
    fsGet [("/q", "bytes")] "/q" = some "bytes" ∧
    vGet ([] : List ValidatedFile) "/q" = none ∧
    (validate_version (fun _ => "h") [] [("/q", "bytes")]
        ⟨"V", "D", "t", "e", "h", 1, 9⟩ "/q" =
      ⟨decide (("h" : String) = "h"),
       vAdd [] ⟨"/q", some "h", some 9⟩, 1⟩ ∧
    validate_attachment [] [("/q", "bytes")] ⟨"A", "P", "n", 9⟩ "/q" =
      ⟨decide ((9 : Nat) = ("bytes" : String).length),
       vAdd [] ⟨"/q", none, some 9⟩, 1⟩) :=
  ⟨by decide, by decide,
   c3_cache_miss_amended (fun _ => "h") [] [("/q", "bytes")]
     ⟨"V", "D", "t", "e", "h", 1, 9⟩ ⟨"A", "P", "n", 9⟩ "/q" "bytes"
     (by decide) (by decide)⟩

/-- C7 (amended).  Shape of records stored by validation on a cache miss: the
attachment record has only the content size populated (checksum absent), while
the version record has the computed checksum populated and additionally
carries the version's server-recorded content size (both fields populated);
in the persisted row an absent field is the empty cell. -/
theorem c7_stored_record_shape :
    ∀ (md5 : String → String) (idx : List ValidatedFile) (fs : FileSystem)
      (v : ContentVersion) (a : Attachment) (p content : String),
      fsGet fs p = some content → vGet idx p = none →
      (validate_attachment idx fs a p).index =
        idx ++ [⟨p, none, some a.content_size⟩] ∧
      (validate_version md5 idx fs v p).index =
        idx ++ [⟨p, some (md5 content), some v.content_size⟩] := by
  intro md5 idx fs v a p content hc hget
  constructor
  · have h := vAdd_of_fresh idx ⟨p, none, some a.content_size⟩ hget
    simp [validate_attachment, hc, hget, h]
  · have h := vAdd_of_fresh idx ⟨p, some (md5 content), some v.content_size⟩ hget
    simp [validate_version, hc, hget, h]

/-- C7 witness: validating an attachment of size 6 and a version of size 8 at
fresh paths appends, respectively, a size-only record and a record holding
both the computed checksum and the server size. -/
theorem c7_stored_record_shape_witness :
    fsGet [("/r", "zz")] "/r" = some "zz" ∧
    vGet ([] : List ValidatedFile) "/r" = none ∧
    ((validate_attachment [] [("/r", "zz")] ⟨"A", "P", "n", 6⟩ "/r").index =
      [] ++ [⟨"/r", none, some 6⟩] ∧
    (validate_version (fun _ => "m") [] [("/r", "zz")]
        ⟨"V", "D", "t", "e", "c", 1, 8⟩ "/r").index =
      [] ++ [⟨"/r", some "m", some 8⟩]) :=
  ⟨by decide, by decide,
   c7_stored_record_shape (fun _ => "m") [] [("/r", "zz")]
     ⟨"V", "D", "t", "e", "c", 1, 8⟩ ⟨"A", "P", "n", 6⟩ "/r" "zz"
     (by decide) (by decide)⟩

/-- With no stop event the inner loop never raises and sleeps the full
interval. -/
theorem wait_inner_none : ∀ (n e : Nat), wait_inner none e n = (false, n) := by
  intro n
  induction n with
  | zero => intro e; rfl
  | succ k ih =>
    intro e
    simp [wait_inner, stopSet, ih (e + 1)]

/-- With the stop event set at second `t` inside the interval, the inner loop
checks the flag before each sleep and raises after exactly `t - e` further
sleeps. -/
theorem wait_inner_stop :
    ∀ (n e t : Nat), e ≤ t → t - e < n → wait_inner (some t) e n = (true, t - e) := by
  intro n
  induction n with
  | zero => intro e t h1 h2; omega
  | succ k ih =>
    intro e t h1 h2
    by_cases hst : t ≤ e
    · have ht : t = e := le_antisymm hst h1
      simp [wait_inner, stopSet, ht]
    · have h3 : e + 1 ≤ t := by omega
      have h4 : t - (e + 1) < k := by omega
      have hne : ¬ (t ≤ e) := hst
      simp only [wait_inner, stopSet, decide_eq_true_eq, if_neg hne,
        ih (e + 1) t h3 h4]
      have harith : t - (e + 1) + 1 = t - e := by omega
      rw [harith]

/-- One-step unfolding of the outer wait loop. -/
theorem wait_outer_unfold (m : ℚ) (stopAt : Option Nat) (w : Nat)
    (rl : List ℚ) (e : Nat) (u : ℚ) :
    wait_outer m stopAt w rl e u =
      if u < m then ⟨WaitResult.returned, 0, 0⟩
      else
        let inner := wait_inner stopAt e w
        if inner.1 then ⟨WaitResult.raisedStop, inner.2, 0⟩
        else
          match rl with
          | [] => ⟨WaitResult.diverged, inner.2, 0⟩
          | x :: rest =>
            let o := wait_outer m stopAt w rest (e + inner.2) x
            ⟨o.result, inner.2 + o.sleeps, o.refreshes + 1⟩ := by
  cases rl <;> rfl

/-- In a run without cancellation, every refresh fetch is preceded by a full
wait interval of one-second sleeps: a returned run slept exactly
`wait_sec * refreshes` seconds. -/
theorem wait_outer_sleeps (m : ℚ) (w : Nat) :
    ∀ (refreshList : List ℚ) (e : Nat) (u : ℚ),
    (wait_outer m none w refreshList e u).result = WaitResult.returned →
    (wait_outer m none w refreshList e u).sleeps =
      w * (wait_outer m none w refreshList e u).refreshes := by
  intro refreshList
  induction refreshList with
  | nil =>
    intro e u h
    rw [wait_outer_unfold] at h ⊢
    by_cases hu : u < m
    · simp [hu]
    · exfalso
      simp [hu, wait_inner_none] at h
  | cons x rest ih =>
    intro e u h
    rw [wait_outer_unfold] at h ⊢
    by_cases hu : u < m
    · simp [hu]
    · simp [hu, wait_inner_none] at h ⊢
      have hr := ih (e + w) x h
      rw [hr]
      ring

/-- C5.  Quota gate behaviour of `_wait_if_api_usage_limit`: with the
threshold unset it returns at once, without consulting usage and without
sleeping; with a threshold and no cancellation, a run that returns slept
exactly one full wait interval per `refresh=True` re-fetch (one-second
increments, usage only re-fetched after the full interval); and if the
cancellation flag becomes set `t` seconds into the first wait (with usage at
or above the threshold), the call raises `StopDownloadException` after exactly
`t` sleeps — the flag is checked before every one-second sleep — instead of
returning, with no refresh fetch. -/
theorem c5_quota_gate :
    (∀ (stopAt : Option Nat) (wait_sec : Nat) (first : ℚ) (refreshList : List ℚ),
      wait_if_api_usage_limit none stopAt wait_sec first refreshList =
        ⟨WaitResult.returned, 0, 0, 0⟩) ∧
    (∀ (m : ℚ) (wait_sec : Nat) (first : ℚ) (refreshList : List ℚ),
      (wait_if_api_usage_limit (some m) none wait_sec first refreshList).result =
        WaitResult.returned →
      (wait_if_api_usage_limit (some m) none wait_sec first refreshList).sleeps =
        wait_sec *
          (wait_if_api_usage_limit (some m) none wait_sec first refreshList).refreshes) ∧
    (∀ (m : ℚ) (wait_sec : Nat) (first : ℚ) (refreshList : List ℚ) (t : Nat),
      m ≤ first → t < wait_sec →
      wait_if_api_usage_limit (some m) (some t) wait_sec first refreshList =
        ⟨WaitResult.raisedStop, t, 0, 1⟩) := by
  refine ⟨fun _ _ _ _ => rfl, ?_, ?_⟩
  · intro m wait_sec first refreshList h
    have h' : (wait_outer m none wait_sec refreshList 0 first).result =
        WaitResult.returned := by
      simpa [wait_if_api_usage_limit] using h
    have hs := wait_outer_sleeps m wait_sec refreshList 0 first h'
    simpa [wait_if_api_usage_limit] using hs
  · intro m wait_sec first refreshList t hm ht
    have h1 : ¬ (first < m) := not_lt.mpr hm
    have h2 : wait_inner (some t) 0 wait_sec = (true, t) := by
      have h := wait_inner_stop wait_sec 0 t (Nat.zero_le t) (by omega)
      simpa using h
    rw [wait_if_api_usage_limit, wait_outer_unfold]
    simp [h1, h2]

/-- C5 witness, following the spec scenario: threshold 30, first usage 50,
refresh snapshot 10, wait interval 7 seconds, cancellation at second 3 — the
call raises after exactly 3 one-second sleeps with no refresh fetch. -/
theorem c5_quota_gate_witness :
    ((30 : ℚ) ≤ 50 ∧ 3 < 7) ∧
    wait_if_api_usage_limit (some 30) (some 3) 7 50 [10] =
      ⟨WaitResult.raisedStop, 3, 0, 1⟩ :=
  ⟨⟨by norm_num, by norm_num⟩,
   c5_quota_gate.2.2 30 7 50 [10] 3 (by norm_num) (by norm_num)⟩

/-- Half-to-even rounding moves a rational by at most one half. -/
theorem abs_roundHalfEven_sub (x : ℚ) :
    |((roundHalfEven x : ℤ) : ℚ) - x| ≤ 1 / 2 := by
  have h0 : ((⌊x⌋ : ℤ) : ℚ) ≤ x := Int.floor_le x
  have h1 : x < ((⌊x⌋ : ℤ) : ℚ) + 1 := Int.lt_floor_add_one x
  unfold roundHalfEven
  by_cases hlt : x - ⌊x⌋ < 1 / 2
  · rw [if_pos hlt, abs_le]
    constructor <;> linarith
  · rw [if_neg hlt]
    by_cases hgt : 1 / 2 < x - ⌊x⌋
    · rw [if_pos hgt, abs_le]
      constructor <;> push_cast <;> linarith
    · rw [if_neg hgt]
      have heq : x - ⌊x⌋ = 1 / 2 := le_antisymm (not_lt.mp hgt) (not_lt.mp hlt)
      by_cases hpar : ⌊x⌋ % 2 = 0
      · rw [if_pos hpar, abs_le]
        constructor <;> linarith
      · rw [if_neg hpar, abs_le]
        constructor <;> push_cast <;> linarith

/-- C9 (amended).  The computed usage percent equals `used/total*100` rounded
to two decimal places: it is 0 when the total is not positive, and otherwise
lies within `1/200` of the exact value and is an integer number of hundredths. -/
theorem c9_percent_amended :
    ∀ (u : ApiUsage),
      (u.total ≤ 0 → u.percent = 0) ∧
      (0 < u.total →
        |u.percent - (u.used : ℚ) / (u.total : ℚ) * 100| ≤ 1 / 200 ∧
        ∃ z : ℤ, u.percent * 100 = z) := by
  intro u
  constructor
  · intro h
    unfold ApiUsage.percent
    rw [if_neg (not_lt.mpr h)]
  · intro h
    unfold ApiUsage.percent
    rw [if_pos h]
    constructor
    · have hb := abs_roundHalfEven_sub ((u.used : ℚ) / (u.total : ℚ) * 100 * 100)
      have hr :
          ((roundHalfEven ((u.used : ℚ) / (u.total : ℚ) * 100 * 100) : ℤ) : ℚ) / 100 -
              (u.used : ℚ) / (u.total : ℚ) * 100 =
            (((roundHalfEven ((u.used : ℚ) / (u.total : ℚ) * 100 * 100) : ℤ) : ℚ) -
              (u.used : ℚ) / (u.total : ℚ) * 100 * 100) / 100 := by
        ring
      rw [hr, abs_div]
      have habs : |(100 : ℚ)| = 100 := by norm_num
      rw [habs]
      linarith
    · refine ⟨roundHalfEven ((u.used : ℚ) / (u.total : ℚ) * 100 * 100), ?_⟩
      field_simp

/-- C9 witness: for `used = 1, total = 4` the percent is within a half
hundredth of the exact `25` and is an integer number of hundredths. -/
theorem c9_percent_amended_witness :
    (0 : ℤ) < (⟨1, 4⟩ : ApiUsage).total ∧
    (|ApiUsage.percent ⟨1, 4⟩ -
        ((⟨1, 4⟩ : ApiUsage).used : ℚ) / ((⟨1, 4⟩ : ApiUsage).total : ℚ) * 100| ≤ 1 / 200 ∧
      ∃ z : ℤ, ApiUsage.percent ⟨1, 4⟩ * 100 = z) :=
  ⟨by norm_num, (c9_percent_amended ⟨1, 4⟩).2 (by norm_num)⟩

/-- Looking up in a concatenation searches the left part first. -/
theorem dGet_append (l1 l2 : List DownloadedSalesforceObject) (i : String) :
    dGet (l1 ++ l2) i =
      match dGet l1 i with
      | some x => some x
      | none => dGet l2 i := by
  induction l1 with
  | nil => simp [dGet]
  | cons r rest ih =>
    by_cases hr : r.id = i
    · simp [dGet, hr]
    · simp [dGet, hr, ih]

/-- Inserting a record whose id is not yet in the downloaded index appends it. -/
theorem dAdd_of_fresh (l : List DownloadedSalesforceObject)
    (o : DownloadedSalesforceObject) (h : dGet l o.id = none) :
    dAdd l o = l ++ [o] := by
  simp [dAdd, h]

/-- Loading the saved rows of a downloaded index on top of an accumulator
appends the records, provided their ids are fresh and mutually distinct. -/
theorem downloaded_load_acc :
    ∀ (l acc : List DownloadedSalesforceObject),
    (∀ o ∈ l, dGet acc o.id = none) →
    (l.map DownloadedSalesforceObject.id).Nodup →
    downloaded_load (downloaded_save l) acc = acc ++ l := by
  intro l
  induction l with
  | nil => intro acc _ _; simp [downloaded_save, downloaded_load]
  | cons o rest ih =>
    intro acc hfresh hnodup
    have h1 : dGet acc o.id = none := hfresh o (List.mem_cons_self o rest)
    have h2 : downloaded_load (downloaded_save (o :: rest)) acc =
        downloaded_load (downloaded_save rest) (dAdd acc ⟨o.id, o.path⟩) := rfl
    have h3 : (⟨o.id, o.path⟩ : DownloadedSalesforceObject) = o := rfl
    rw [h2, h3, dAdd_of_fresh acc o h1]
    have hmap : (List.map DownloadedSalesforceObject.id (o :: rest)).Nodup :=
      hnodup
    rw [List.map_cons, List.nodup_cons] at hmap
    have h4 : ∀ x ∈ rest, dGet (acc ++ [o]) x.id = none := by
      intro x hx
      rw [dGet_append, hfresh x (List.mem_cons_of_mem o hx)]
      have hne : ¬ (o.id = x.id) := by
        intro hcontra
        exact hmap.1 (hcontra ▸ List.mem_map_of_mem DownloadedSalesforceObject.id hx)
      simp [dGet, hne]
    rw [ih (acc ++ [o]) h4 hmap.2, List.append_assoc]
    rfl

/-- Looking up in a concatenation of validated indices searches the left part
first. -/
theorem vGet_append (l1 l2 : List ValidatedFile) (p : String) :
    vGet (l1 ++ l2) p =
      match vGet l1 p with
      | some x => some x
      | none => vGet l2 p := by
  induction l1 with
  | nil => simp [vGet]
  | cons r rest ih =>
    by_cases hr : r.path = p
    · simp [vGet, hr]
    · simp [vGet, hr, ih]

/-- Decoding inverts encoding for a record that satisfies the constructor
invariant and whose checksum is not the empty string. -/
theorem decodeValidatedRow_encode (r : ValidatedFile)
    (hv : r.checksum.isSome = true ∨ r.content_size.isSome = true)
    (hchk : r.checksum ≠ some "") :
    decodeValidatedRow (encodeValidatedRow r) = some r := by
  obtain ⟨p, c, s⟩ := r
  cases c with
  | none =>
    cases s with
    | none => simp at hv
    | some n => simp [encodeValidatedRow, decodeValidatedRow]
  | some str =>
    have hne : ¬ (str = "") := by
      intro hcontra
      exact hchk (by simp [hcontra])
    cases s <;> simp [encodeValidatedRow, decodeValidatedRow, hne]

/-- Loading the saved rows of a validated index on top of an accumulator
appends the records, provided the paths are fresh and mutually distinct, every
record satisfies the constructor invariant, and no checksum is the empty
string. -/
theorem validated_load_acc :
    ∀ (l acc : List ValidatedFile),
    (∀ r ∈ l, vGet acc r.path = none) →
    (l.map ValidatedFile.path).Nodup →
    (∀ r ∈ l, r.checksum.isSome = true ∨ r.content_size.isSome = true) →
    (∀ r ∈ l, r.checksum ≠ some "") →
    validated_load (validated_save l) acc = some (acc ++ l) := by
  intro l
  induction l with
  | nil => intro acc _ _ _ _; simp [validated_save, validated_load]
  | cons r rest ih =>
    intro acc hfresh hnodup hinv hchk
    have hdec : decodeValidatedRow (encodeValidatedRow r) = some r :=
      decodeValidatedRow_encode r (hinv r (List.mem_cons_self r rest))
        (hchk r (List.mem_cons_self r rest))
    have h1 : vGet acc r.path = none := hfresh r (List.mem_cons_self r rest)
    have h2 : validated_save (r :: rest) =
        encodeValidatedRow r :: validated_save rest := rfl
    rw [h2]
    have h3 : validated_load (encodeValidatedRow r :: validated_save rest) acc =
        match decodeValidatedRow (encodeValidatedRow r) with
        | none => none
        | some x => validated_load (validated_save rest) (vAdd acc x) := rfl
    rw [h3, hdec]
    show validated_load (validated_save rest) (vAdd acc r) = some (acc ++ r :: rest)
    rw [vAdd_of_fresh acc r h1]
    have hmap : (List.map ValidatedFile.path (r :: rest)).Nodup := hnodup
    rw [List.map_cons, List.nodup_cons] at hmap
    have h4 : ∀ x ∈ rest, vGet (acc ++ [r]) x.path = none := by
      intro x hx
      rw [vGet_append, hfresh x (List.mem_cons_of_mem r hx)]
      have hne : ¬ (r.path = x.path) := by
        intro hcontra
        exact hmap.1 (hcontra ▸ List.mem_map_of_mem ValidatedFile.path hx)
      simp [vGet, hne]
    rw [ih (acc ++ [r]) h4 hmap.2
        (fun x hx => hinv x (List.mem_cons_of_mem r hx))
        (fun x hx => hchk x (List.mem_cons_of_mem r hx)),
      List.append_assoc]
    rfl

/-- C10 (amended).  Saving and reloading reconstructs both indices exactly:
the downloaded index round-trips for every index (its keys are the record ids
and hence mutually distinct), and the validated index round-trips for every
index whose records satisfy the constructor invariant and have no
empty-string checksum (the empty cell is the encoding of an absent value). -/
theorem c10_round_trip_amended :
    ∀ (didx : List DownloadedSalesforceObject) (vidx : List ValidatedFile),
      (didx.map DownloadedSalesforceObject.id).Nodup →
      (vidx.map ValidatedFile.path).Nodup →
      (∀ r ∈ vidx, r.checksum.isSome = true ∨ r.content_size.isSome = true) →
      (∀ r ∈ vidx, r.checksum ≠ some "") →
      downloaded_load (downloaded_save didx) [] = didx ∧
      validated_load (validated_save vidx) [] = some vidx := by
  intro didx vidx hd hv hinv hchk
  constructor
  · have h := downloaded_load_acc didx [] (fun o _ => rfl) hd
    simpa using h
  · have h := validated_load_acc vidx [] (fun r _ => rfl) hv hinv hchk
    simpa using h

/-- C10 witness: a two-record downloaded index and a two-record validated
index (one checksum-only, one size-only record) both survive the save/load
cycle unchanged. -/
theorem c10_round_trip_amended_witness :
    (([⟨"i1", "p1"⟩, ⟨"i2", "p2"⟩] :
        List DownloadedSalesforceObject).map DownloadedSalesforceObject.id).Nodup ∧
    (([⟨"pa", some "c", none⟩, ⟨"pb", none, some 5⟩] :
        List ValidatedFile).map ValidatedFile.path).Nodup ∧
    (downloaded_load (downloaded_save [⟨"i1", "p1"⟩, ⟨"i2", "p2"⟩]) [] =
        [⟨"i1", "p1"⟩, ⟨"i2", "p2"⟩] ∧
      validated_load
          (validated_save [⟨"pa", some "c", none⟩, ⟨"pb", none, some 5⟩]) [] =
        some [⟨"pa", some "c", none⟩, ⟨"pb", none, some 5⟩]) :=
  ⟨by decide, by decide,
   c10_round_trip_amended [⟨"i1", "p1"⟩, ⟨"i2", "p2"⟩]
     [⟨"pa", some "c", none⟩, ⟨"pb", none, some 5⟩]
     (by decide) (by decide) (by decide) (by decide)⟩

end Archivist
